import Mathlib

/-!
Verification of the question-to-SQL pipeline of the SQLBOT repository
(`src/app.py`, a single Streamlit script).

Python strings are modelled as `List Char`.  The string operations the
script uses (`in`, `split`, `strip`, `replace`) are embedded as executable
list functions with Python's semantics.  The Streamlit session state is
modelled as the stored `Option DB` connection handle; the third-party
collaborators (SQLAlchemy database, Gemini completion client) are
parameters, and a raised Python exception is an `Except.error` carrying the
exception's message.
-/

namespace SqlBot

/-- Python `str` values are modelled as lists of characters. -/
abbrev PyStr := List Char

/-- Whitespace removed by Python `str.strip()` (the ASCII whitespace
characters; the inputs handled by the script are ASCII). -/
def isPySpace (c : Char) : Bool :=
  c == ' ' || c == '\t' || c == '\n' || c == '\r' || c == '\x0b' || c == '\x0c'

/-- Python `s.strip()`: remove leading and trailing whitespace. -/
def pyStrip (s : PyStr) : PyStr :=
  ((s.dropWhile isPySpace).reverse.dropWhile isPySpace).reverse

/-- Python substring membership `pat in s`. -/
def containsSub (pat : PyStr) : PyStr → Bool
  | [] => pat.isEmpty
  | c :: rest => pat.isPrefixOf (c :: rest) || containsSub pat rest

/-- Characters of `s` strictly before the first occurrence of `sep`
(`s` itself when `sep` does not occur): Python `s.split(sep)[0]`
for nonempty `sep`. -/
def takeUntil (sep : PyStr) : PyStr → PyStr
  | [] => []
  | c :: rest => if sep.isPrefixOf (c :: rest) then [] else c :: takeUntil sep rest

/-- Characters of `s` strictly after the first occurrence of `sep`
(`[]` when `sep` does not occur).  Python's `s.split(sep)` scans further
occurrences left to right starting after the end of the first one, so for
inputs containing `sep`, `takeUntil sep (afterFirst sep s)` is
`s.split(sep)[1]`. -/
def afterFirst (sep : PyStr) : PyStr → PyStr
  | [] => []
  | c :: rest =>
    if sep.isPrefixOf (c :: rest) then rest.drop (sep.length - 1)
    else afterFirst sep rest

/-- Python `s.replace(old, new)` for nonempty `old`: replace all
non-overlapping occurrences, left to right, continuing after each inserted
`new`.  The recursion is driven by explicit fuel so that the definition is
structural; with `fuel = s.length` the fuel never runs out. -/
def replaceFuel (old new : PyStr) : Nat → PyStr → PyStr
  | _, [] => []
  | 0, s => s
  | fuel + 1, c :: rest =>
    if old.isPrefixOf (c :: rest) then
      new ++ replaceFuel old new fuel (rest.drop (old.length - 1))
    else
      c :: replaceFuel old new fuel rest

/-- Python `s.replace(old, new)` for nonempty `old`. -/
def pyReplace (old new s : PyStr) : PyStr :=
  replaceFuel old new s.length s

/-- The opening fence marker looked for by `extract_sql`. -/
def fenceSql : PyStr := "```sql".toList

/-- A bare code fence. -/
def fence : PyStr := "```".toList

/-- Literal searched for by the first replacement in `extract_sql`. -/
def fromActors : PyStr := "FROM actors".toList

/-- Replacement text of the first replacement in `extract_sql`. -/
def fromActor : PyStr := "FROM actor".toList

/-- Literal searched for by the second replacement in `extract_sql`. -/
def joinRoles : PyStr := "JOIN roles".toList

/-- Replacement text of the second replacement in `extract_sql`. -/
def joinFilmActor : PyStr := "JOIN film_actor".toList

/-- The two literal replacements applied (in this order) at the end of
`extract_sql`:
`extracted.replace("FROM actors", "FROM actor").replace("JOIN roles", "JOIN film_actor")`. -/
def replacements (s : PyStr) : PyStr :=
  pyReplace joinRoles joinFilmActor (pyReplace fromActors fromActor s)

/-- `extract_sql` from `src/app.py`:

```python
def extract_sql(query_output: str) -> str:
    if "```sql" in query_output and "```" in query_output:
        extracted = query_output.split("```sql")[1].split("```")[0].strip()
    else:
        extracted = query_output.strip()
    extracted = extracted.replace("FROM actors", "FROM actor")
    extracted = extracted.replace("JOIN roles", "JOIN film_actor")
    return extracted
```

`query_output.split("\x60\x60\x60sql")[1]` is the text between the first
occurrence of the marker and the next (non-overlapping) occurrence, i.e.
`takeUntil fenceSql (afterFirst fenceSql query_output)`; the guard
guarantees the index `[1]` exists.  `.split("\x60\x60\x60")[0]` then keeps
the part of that segment before its first bare fence. -/
def extract_sql (query_output : PyStr) : PyStr :=
  let extracted :=
    if containsSub fenceSql query_output && containsSub fence query_output then
      pyStrip (takeUntil fence (takeUntil fenceSql (afterFirst fenceSql query_output)))
    else
      pyStrip query_output
  replacements extracted

/-- Sentinel returned by `get_schema` when no connection handle exists. -/
def sentinelSchema : PyStr := "No database connected.".toList

/-- `get_schema` from `src/app.py`.  The stored session handle
`st.session_state["db"]` is the `db` argument; the handle's
`get_table_info()` introspection capability is the `tableInfo` parameter. -/
def get_schema {DB : Type} (db : Option DB) (tableInfo : DB → PyStr) : PyStr :=
  match db with
  | none => sentinelSchema
  | some d => tableInfo d

/-- `run_generated_query` from `src/app.py`: raises
`ValueError("No database connection.")` when the handle is absent,
otherwise delegates to the handle's `run` method (`runDb`, which may itself
raise). -/
def run_generated_query {DB : Type} (db : Option DB)
    (runDb : DB → PyStr → Except PyStr PyStr) (generated_sql : PyStr) :
    Except PyStr PyStr :=
  match db with
  | none => Except.error ("No database connection.".toList)
  | some d => runDb d generated_sql

/-- The connection URI built by the connect handler:
`f"mysql+mysqlconnector://{username}:{password}@{host}:{port}/{database}"`. -/
def mkUri (username password host port database : PyStr) : PyStr :=
  ("mysql+mysqlconnector://".toList) ++ username ++ (":".toList) ++ password
    ++ ("@".toList) ++ host ++ (":".toList) ++ port ++ ("/".toList) ++ database

/-- Message displayed in the sidebar by the connect handler. -/
inductive SidebarMsg where
  | success (msg : PyStr)
  | failure (msg : PyStr)
deriving DecidableEq

/-- The "Connect to Database" button handler from `src/app.py`.  Any
exception raised while building the URI or establishing the handle is an
`Except.error` of `fromUri`; on failure the stored handle becomes `none`
and the error text is shown after the literal prefix, on success the new
handle is stored wholesale. -/
def connectHandler {DB : Type} (fromUri : PyStr → Except PyStr DB)
    (username password host port database : PyStr) : Option DB × SidebarMsg :=
  match fromUri (mkUri username password host port database) with
  | Except.ok d =>
      (some d, SidebarMsg.success ("Connected to database successfully!".toList))
  | Except.error e =>
      (none, SidebarMsg.failure (("Failed to connect to database: ".toList) ++ e))

/-- Text of `sql_template` before the `schema` placeholder. -/
def templatePre : PyStr :=
  ("\nYou are an SQL generator. Given the following database schema and a natural language question,\nprovide only the SQL query that answers the question.\nUse the table names exactly as provided in the schema.\nFor example, in the Sakila database, use \x27actor\x27 (not \x27actors\x27) and \x27film_actor\x27 for actor-film relationships.\n\n".toList)

/-- Text of `sql_template` between the `schema` and `question` placeholders. -/
def templateMid : PyStr := ("\n\nQuestion: ".toList)

/-- Text of `sql_template` after the `question` placeholder. -/
def templatePost : PyStr :=
  ("\n\nReturn only the SQL query with no additional explanation.\n".toList)

/-- The prompt produced by `sql_prompt` for a given schema text and
question: the fixed template with both placeholders substituted. -/
def promptOf (schema question : PyStr) : PyStr :=
  templatePre ++ schema ++ templateMid ++ question ++ templatePost

/-- Outputs rendered on the main page by the generate handler. -/
inductive UIEvent where
  | warning (msg : PyStr)
  | successNote (msg : PyStr)
  | codeBlock (sql : PyStr)
  | errorNote (msg : PyStr)
  | subheaderNote (msg : PyStr)
  | writeNote (msg : PyStr)
deriving DecidableEq

/-- The "Generate SQL Query" button handler from `src/app.py`.

The chain `RunnablePassthrough.assign(schema=get_schema) | sql_prompt | llm | StrOutputParser()`
is modelled by computing `get_schema`, substituting into the template and
invoking the completion client `llm` on the resulting prompt; `llm` may
raise.  On generation failure `generated_sql` stays `None`, so the
execution guard `if generated_sql and st.session_state.get("db")` is not
taken; otherwise the guard tests both the truthiness (non-emptiness) of the
extracted SQL string and the presence of the handle. -/
def generateHandler {DB : Type} (db : Option DB) (tableInfo : DB → PyStr)
    (llm : PyStr → Except PyStr PyStr) (runDb : DB → PyStr → Except PyStr PyStr)
    (user_question : PyStr) : List UIEvent :=
  if user_question.isEmpty then
    [UIEvent.warning ("Please enter a question to generate an SQL query.".toList)]
  else
    match llm (promptOf (get_schema db tableInfo) user_question) with
    | Except.error e =>
        [UIEvent.errorNote (("Error generating SQL: ".toList) ++ e)]
    | Except.ok raw_output =>
        let generated_sql := extract_sql raw_output
        let shown := [UIEvent.successNote ("SQL Query Generated!".toList),
                      UIEvent.codeBlock generated_sql]
        if !generated_sql.isEmpty && db.isSome then
          shown ++ (match run_generated_query db runDb generated_sql with
            | Except.ok r =>
                [UIEvent.subheaderNote ("SQL Query Result:".toList), UIEvent.writeNote r]
            | Except.error e =>
                [UIEvent.errorNote (("Error running query: ".toList) ++ e)])
        else
          shown

/-- A user interaction handled by the script. -/
inductive Action where
  | connect (username password host port database : PyStr)
  | generate (question : PyStr)

/-- The external collaborators of the script, as black boxes: the database
connectivity layer (`fromUri`, `tableInfo`, `runDb`) and the completion
client (`llm`). -/
structure Oracles (DB : Type) where
  fromUri : PyStr → Except PyStr DB
  tableInfo : DB → PyStr
  llm : PyStr → Except PyStr PyStr
  runDb : DB → PyStr → Except PyStr PyStr

/-- Output of one interaction: a sidebar message or main-page events. -/
inductive StepOut where
  | sidebar (m : SidebarMsg)
  | events (evs : List UIEvent)
deriving DecidableEq

/-- One interaction of the script: the stored connection handle before the
action is `db`, the returned pair is the handle after the action and what
was rendered.  Only the connect branch writes the handle. -/
def step {DB : Type} (o : Oracles DB) (db : Option DB) : Action → Option DB × StepOut
  | Action.connect u p hs pt d =>
      let r := connectHandler o.fromUri u p hs pt d
      (r.1, StepOut.sidebar r.2)
  | Action.generate q =>
      (db, StepOut.events (generateHandler db o.tableInfo o.llm o.runDb q))

/-! Basic facts about `List.isPrefixOf` and `containsSub` on `PyStr`. -/

theorem pref_nil (v : PyStr) : ([] : PyStr).isPrefixOf v = true := by
  cases v <;> rfl

theorem pref_self_append (a t : PyStr) : a.isPrefixOf (a ++ t) = true := by
  induction a with
  | nil => exact pref_nil t
  | cons c a ih => simp [List.isPrefixOf, ih]

theorem pref_ex {u v : PyStr} (h : u.isPrefixOf v = true) : ∃ t, v = u ++ t := by
  induction u generalizing v with
  | nil => exact ⟨v, rfl⟩
  | cons x u ih =>
    cases v with
    | nil => simp [List.isPrefixOf] at h
    | cons y v =>
      simp only [List.isPrefixOf, Bool.and_eq_true, beq_iff_eq] at h
      obtain ⟨t, ht⟩ := ih h.2
      exact ⟨t, by simp [h.1, ht]⟩

theorem pref_of_eq_append {u v t : PyStr} (h : v = u ++ t) : u.isPrefixOf v = true := by
  subst h; exact pref_self_append u t

theorem pref_shorten {u : PyStr} : ∀ {w X : PyStr}, u.isPrefixOf (w ++ X) = true →
    u.length ≤ w.length → u.isPrefixOf w = true := by
  induction u with
  | nil => intro w X _ _; exact pref_nil w
  | cons x u ih =>
    intro w X h hl
    cases w with
    | nil => simp at hl
    | cons y w =>
      simp only [List.cons_append, List.isPrefixOf, Bool.and_eq_true] at h ⊢
      exact ⟨h.1, ih h.2 (by simpa using hl)⟩

theorem pref_append_split {u : PyStr} : ∀ {w X : PyStr},
    u.isPrefixOf (w ++ X) = true →
    u.isPrefixOf w = true ∨
      (w.isPrefixOf u = true ∧ (u.drop w.length).isPrefixOf X = true) := by
  intro w
  induction w generalizing u with
  | nil => intro X h; exact Or.inr ⟨pref_nil u, h⟩
  | cons y w ih =>
    intro X h
    cases u with
    | nil => exact Or.inl rfl
    | cons x u =>
      simp only [List.cons_append, List.isPrefixOf, Bool.and_eq_true] at h
      rcases ih h.2 with h' | h'
      · exact Or.inl (by simp [List.isPrefixOf, h.1, h'])
      · exact Or.inr ⟨by simp [List.isPrefixOf, beq_iff_eq, eq_comm.mp (beq_iff_eq.mp h.1), h'.1],
          by simpa using h'.2⟩

theorem drop_len_append (u t : PyStr) : (u ++ t).drop u.length = t := by
  induction u with
  | nil => rfl
  | cons c u ih => simp [ih]

theorem contains_nil (pat : PyStr) : containsSub pat [] = pat.isEmpty := rfl

theorem contains_cons (pat : PyStr) (c : Char) (rest : PyStr) :
    containsSub pat (c :: rest) = (pat.isPrefixOf (c :: rest) || containsSub pat rest) := rfl

theorem contains_of_pref {pat v : PyStr} (h : pat.isPrefixOf v = true) :
    containsSub pat v = true := by
  cases v with
  | nil =>
    cases pat with
    | nil => rfl
    | cons x u => simp [List.isPrefixOf] at h
  | cons c rest => simp [contains_cons, h]

theorem contains_of_contains_right {pat t : PyStr} (a : PyStr)
    (h : containsSub pat t = true) : containsSub pat (a ++ t) = true := by
  induction a with
  | nil => exact h
  | cons c a ih => simp [contains_cons, ih]

theorem not_contains_of_cons {pat : PyStr} {c : Char} {rest : PyStr}
    (h : containsSub pat (c :: rest) = false) : containsSub pat rest = false := by
  simp only [contains_cons, Bool.or_eq_false_iff] at h
  exact h.2

theorem not_contains_append_right {pat a t : PyStr}
    (h : containsSub pat (a ++ t) = false) : containsSub pat t = false := by
  cases ht : containsSub pat t with
  | false => rfl
  | true => rw [contains_of_contains_right a ht] at h; cases h

theorem contains_append_cases (pat : PyStr) : ∀ (a X : PyStr),
    containsSub pat (a ++ X) = true →
    (∃ k, k < a.length ∧ pat.isPrefixOf (a.drop k ++ X) = true) ∨
      containsSub pat X = true := by
  intro a
  induction a with
  | nil => intro X h; exact Or.inr h
  | cons c a ih =>
    intro X h
    simp only [List.cons_append, contains_cons, Bool.or_eq_true] at h
    rcases h with h | h
    · exact Or.inl ⟨0, by simp, by simpa using h⟩
    · rcases ih X h with ⟨k, hk, hp⟩ | h'
      · exact Or.inl ⟨k + 1, by simpa using hk, by simpa using hp⟩
      · exact Or.inr h'

theorem contains_mono_pat {p1 p2 : PyStr} (hp : p2.isPrefixOf p1 = true) :
    ∀ {q : PyStr}, containsSub p1 q = true → containsSub p2 q = true := by
  intro q
  induction q with
  | nil =>
    intro h
    simp only [contains_nil, List.isEmpty_iff] at h ⊢
    subst h
    cases p2 with
    | nil => rfl
    | cons x u => simp [List.isPrefixOf] at hp
  | cons c rest ih =>
    intro h
    simp only [contains_cons, Bool.or_eq_true] at h ⊢
    rcases h with h | h
    · obtain ⟨t1, ht1⟩ := pref_ex h
      obtain ⟨t2, ht2⟩ := pref_ex hp
      exact Or.inl (pref_of_eq_append (by rw [ht1, ht2, List.append_assoc]))
    · exact Or.inr (ih h)

theorem contains_nil_of_ne {old : PyStr} (h : old ≠ []) : containsSub old [] = false := by
  cases old with
  | nil => exact absurd rfl h
  | cons c rest => rfl

theorem pref_append_cancel (a u v : PyStr) :
    (a ++ u).isPrefixOf (a ++ v) = u.isPrefixOf v := by
  induction a with
  | nil => rfl
  | cons c a ih => simp [List.isPrefixOf, ih]

theorem match_drop {old : PyStr} {c : Char} {rest t : PyStr} (hne : old ≠ [])
    (ht : c :: rest = old ++ t) : rest.drop (old.length - 1) = t := by
  cases old with
  | nil => exact absurd rfl hne
  | cons o0 orest =>
    simp only [List.cons_append, List.cons.injEq] at ht
    rw [ht.2]
    simp only [List.length_cons, Nat.add_sub_cancel]
    exact drop_len_append orest t

/-! Facts about `replaceFuel`.  The key structural lemmas: a prefix made of
characters other than the head of the replacement text is reflected back to
the input; replacing is the identity on strings without an occurrence;
replacement does not create occurrences of a pattern that cannot arise at
the boundary of the inserted text. -/

theorem pref_replaceFuel (old : PyStr) (n0 : Char) (nrest : PyStr) :
    ∀ (fuel : Nat) (v u : PyStr), (∀ ch ∈ u, ch ≠ n0) →
      u.isPrefixOf (replaceFuel old (n0 :: nrest) fuel v) = true →
      u.isPrefixOf v = true := by
  intro fuel
  induction fuel with
  | zero =>
    intro v u _ h
    cases v with
    | nil => exact h
    | cons c rest => exact h
  | succ n ih =>
    intro v u hu h
    cases v with
    | nil => exact h
    | cons c rest =>
      cases hm : old.isPrefixOf (c :: rest) with
      | true =>
        simp only [replaceFuel, hm, if_true] at h
        cases u with
        | nil => exact pref_nil _
        | cons x u' =>
          simp only [List.cons_append, List.isPrefixOf, Bool.and_eq_true, beq_iff_eq] at h
          exact absurd h.1 (hu x (List.mem_cons_self x u'))
      | false =>
        simp only [replaceFuel, hm, Bool.false_eq_true, if_false] at h
        cases u with
        | nil => exact pref_nil _
        | cons x u' =>
          simp only [List.isPrefixOf, Bool.and_eq_true] at h ⊢
          exact ⟨h.1, ih rest u' (fun ch hch => hu ch (List.mem_cons_of_mem x hch)) h.2⟩

theorem replaceFuel_id (old new : PyStr) :
    ∀ (fuel : Nat) (s : PyStr), containsSub old s = false →
      replaceFuel old new fuel s = s := by
  intro fuel
  induction fuel with
  | zero => intro s _; cases s <;> rfl
  | succ n ih =>
    intro s h
    cases s with
    | nil => rfl
    | cons c rest =>
      have hm : old.isPrefixOf (c :: rest) = false := by
        simp only [contains_cons, Bool.or_eq_false_iff] at h
        exact h.1
      simp [replaceFuel, hm, ih rest (not_contains_of_cons h)]

theorem replaceFuel_preserve (old pat : PyStr) (n0 : Char) (nrest : PyStr)
    (hpat : pat ≠ []) (hold : old ≠ [])
    (hrefl : ∀ ch ∈ pat.tail, ch ≠ n0)
    (hjunk : ∀ k, k < (n0 :: nrest).length →
      pat.isPrefixOf ((n0 :: nrest).drop k) = false ∧
      ((n0 :: nrest).drop k).isPrefixOf pat = false) :
    ∀ (fuel : Nat) (s : PyStr), containsSub pat s = false →
      containsSub pat (replaceFuel old (n0 :: nrest) fuel s) = false := by
  intro fuel
  induction fuel with
  | zero =>
    intro s h
    cases s with
    | nil => exact h
    | cons c rest => exact h
  | succ n ih =>
    intro s h
    cases s with
    | nil => exact h
    | cons c rest =>
      cases hm : old.isPrefixOf (c :: rest) with
      | true =>
        obtain ⟨t, ht⟩ := pref_ex hm
        have hdrop : rest.drop (old.length - 1) = t := match_drop hold ht
        have hnt : containsSub pat t = false := by
          rw [ht] at h
          exact not_contains_append_right h
        simp only [replaceFuel, hm, if_true, hdrop]
        by_contra hcon
        rw [Bool.not_eq_false] at hcon
        rcases contains_append_cases pat (n0 :: nrest) _ hcon with ⟨k, hk, hp⟩ | hX
        · rcases pref_append_split hp with h1 | ⟨h1, _⟩
          · rw [(hjunk k hk).1] at h1
            cases h1
          · rw [(hjunk k hk).2] at h1
            cases h1
        · rw [ih t hnt] at hX
          cases hX
      | false =>
        simp only [replaceFuel, hm, Bool.false_eq_true, if_false]
        rw [contains_cons, Bool.or_eq_false_iff]
        refine ⟨?_, ih rest (not_contains_of_cons h)⟩
        by_contra hcon
        rw [Bool.not_eq_false] at hcon
        cases pat with
        | nil => exact absurd rfl hpat
        | cons p0 pt =>
          simp only [List.isPrefixOf, Bool.and_eq_true] at hcon
          have hpt : pt.isPrefixOf rest = true :=
            pref_replaceFuel old n0 nrest n rest pt hrefl hcon.2
          have : containsSub (p0 :: pt) (c :: rest) = true :=
            contains_of_pref (by simp [List.isPrefixOf, hcon.1, hpt])
          rw [h] at this
          cases this

theorem replaceFuel_self_removed (old : PyStr) (n0 : Char) (nrest : PyStr)
    (hold : old ≠ [])
    (hrefl : ∀ ch ∈ old.tail, ch ≠ n0)
    (hjunk : ∀ k, k < (n0 :: nrest).length →
      old.isPrefixOf ((n0 :: nrest).drop k) = false ∧
      ((n0 :: nrest).drop k).isPrefixOf old = false) :
    ∀ (fuel : Nat) (s : PyStr), s.length ≤ fuel →
      containsSub old (replaceFuel old (n0 :: nrest) fuel s) = false := by
  intro fuel
  induction fuel with
  | zero =>
    intro s hl
    have hs : s = [] := List.eq_nil_of_length_eq_zero (Nat.le_zero.mp hl)
    subst hs
    exact contains_nil_of_ne hold
  | succ n ih =>
    intro s hl
    cases s with
    | nil => exact contains_nil_of_ne hold
    | cons c rest =>
      cases hm : old.isPrefixOf (c :: rest) with
      | true =>
        obtain ⟨t, ht⟩ := pref_ex hm
        have hdrop : rest.drop (old.length - 1) = t := match_drop hold ht
        have hlt : t.length ≤ n := by
          have h1 : t.length ≤ rest.length := by
            rw [← hdrop, List.length_drop]
            exact Nat.sub_le _ _
          have h2 : rest.length ≤ n := by simpa using hl
          exact Nat.le_trans h1 h2
        simp only [replaceFuel, hm, if_true, hdrop]
        by_contra hcon
        rw [Bool.not_eq_false] at hcon
        rcases contains_append_cases old (n0 :: nrest) _ hcon with ⟨k, hk, hp⟩ | hX
        · rcases pref_append_split hp with h1 | ⟨h1, _⟩
          · rw [(hjunk k hk).1] at h1
            cases h1
          · rw [(hjunk k hk).2] at h1
            cases h1
        · rw [ih t hlt] at hX
          cases hX
      | false =>
        have hln : rest.length ≤ n := by simpa using hl
        simp only [replaceFuel, hm, Bool.false_eq_true, if_false]
        rw [contains_cons, Bool.or_eq_false_iff]
        refine ⟨?_, ih rest hln⟩
        by_contra hcon
        rw [Bool.not_eq_false] at hcon
        cases old with
        | nil => exact absurd rfl hold
        | cons o0 ot =>
          simp only [List.isPrefixOf, Bool.and_eq_true] at hcon
          have hpt : ot.isPrefixOf rest = true :=
            pref_replaceFuel (o0 :: ot) n0 nrest n rest ot (fun ch hch => hrefl ch hch) hcon.2
          have hfull : (o0 :: ot).isPrefixOf (c :: rest) = true := by
            simp [List.isPrefixOf, hcon.1, hpt]
          rw [hm] at hfull
          cases hfull

theorem replaceFuel_self_ext (n0 : Char) (nrest ext : PyStr) (old : PyStr)
    (holdeq : old = (n0 :: nrest) ++ ext)
    (hreflTail : ∀ ch ∈ old.tail, ch ≠ n0)
    (hreflExt : ∀ ch ∈ ext, ch ≠ n0)
    (hjunk : ∀ k, k < (n0 :: nrest).length → 1 ≤ k →
      old.isPrefixOf ((n0 :: nrest).drop k) = false ∧
      ((n0 :: nrest).drop k).isPrefixOf old = false) :
    ∀ (fuel : Nat) (s : PyStr), s.length ≤ fuel →
      containsSub (old ++ ext) s = false →
      containsSub old (replaceFuel old (n0 :: nrest) fuel s) = false := by
  have hold : old ≠ [] := by rw [holdeq]; simp
  intro fuel
  induction fuel with
  | zero =>
    intro s hl _
    have hs : s = [] := List.eq_nil_of_length_eq_zero (Nat.le_zero.mp hl)
    subst hs
    exact contains_nil_of_ne hold
  | succ n ih =>
    intro s hl hno
    cases s with
    | nil => exact contains_nil_of_ne hold
    | cons c rest =>
      cases hm : old.isPrefixOf (c :: rest) with
      | true =>
        obtain ⟨t, ht⟩ := pref_ex hm
        have hdrop : rest.drop (old.length - 1) = t := match_drop hold ht
        have hlt : t.length ≤ n := by
          have h1 : t.length ≤ rest.length := by
            rw [← hdrop, List.length_drop]
            exact Nat.sub_le _ _
          have h2 : rest.length ≤ n := by simpa using hl
          exact Nat.le_trans h1 h2
        have hnot : containsSub (old ++ ext) t = false := by
          rw [ht] at hno
          exact not_contains_append_right hno
        simp only [replaceFuel, hm, if_true, hdrop]
        by_contra hcon
        rw [Bool.not_eq_false] at hcon
        rcases contains_append_cases old (n0 :: nrest) _ hcon with ⟨k, hk, hp⟩ | hX
        · rcases Nat.eq_zero_or_pos k with hk0 | hk1
          · subst hk0
            rw [List.drop_zero] at hp
            have hp' : ext.isPrefixOf (replaceFuel old (n0 :: nrest) n t) = true := by
              rw [← pref_append_cancel (n0 :: nrest) ext]
              rw [← holdeq]
              exact hp
            have hextp : ext.isPrefixOf t = true :=
              pref_replaceFuel old n0 nrest n t ext hreflExt hp'
            obtain ⟨t', ht'⟩ := pref_ex hextp
            have : (old ++ ext).isPrefixOf (c :: rest) = true := by
              rw [ht, ht']
              exact pref_of_eq_append (by rw [List.append_assoc])
            have hcc : containsSub (old ++ ext) (c :: rest) = true := contains_of_pref this
            rw [hno] at hcc
            cases hcc
          · rcases pref_append_split hp with h1 | ⟨h1, _⟩
            · rw [(hjunk k hk hk1).1] at h1
              cases h1
            · rw [(hjunk k hk hk1).2] at h1
              cases h1
        · rw [ih t hlt hnot] at hX
          cases hX
      | false =>
        have hln : rest.length ≤ n := by simpa using hl
        simp only [replaceFuel, hm, Bool.false_eq_true, if_false]
        rw [contains_cons, Bool.or_eq_false_iff]
        refine ⟨?_, ih rest hln (not_contains_of_cons hno)⟩
        by_contra hcon
        rw [Bool.not_eq_false] at hcon
        rcases hOld : old with _ | ⟨o0, ot⟩
        · exact absurd hOld hold
        · rw [hOld] at hcon
          simp only [List.isPrefixOf, Bool.and_eq_true] at hcon
          have hpt : ot.isPrefixOf rest = true := by
            refine pref_replaceFuel old n0 nrest n rest ot ?_ ?_
            · intro ch hch
              refine hreflTail ch ?_
              rw [hOld]
              exact hch
            · rw [hOld]
              exact hcon.2
          have hfull : old.isPrefixOf (c :: rest) = true := by
            rw [hOld]
            simp [List.isPrefixOf, hcon.1, hpt]
          rw [hm] at hfull
          cases hfull

theorem pyReplace_id {old : PyStr} (new : PyStr) {s : PyStr}
    (h : containsSub old s = false) : pyReplace old new s = s :=
  replaceFuel_id old new s.length s h

/-! Instantiations of the `replaceFuel` lemmas at the two concrete
replacements of `extract_sql`.  The side conditions about the literal
strings (no boundary overlap except the trailing `s` of "FROM actors"
over "FROM actor") are checked by `decide`. -/

theorem rep1_removes_fromActors (s : PyStr)
    (h : containsSub ("FROM actorss".toList) s = false) :
    containsSub fromActors (pyReplace fromActors fromActor s) = false := by
  have heq : ('F' :: ("ROM actor".toList)) = fromActor := by decide
  have hno : containsSub (fromActors ++ ("s".toList)) s = false := by
    have : fromActors ++ ("s".toList) = ("FROM actorss".toList) := by decide
    rw [this]
    exact h
  have := replaceFuel_self_ext 'F' ("ROM actor".toList) ("s".toList) fromActors
    (by decide) (by decide) (by decide) (by decide) s.length s le_rfl hno
  rw [heq] at this
  exact this

theorem rep2_removes_joinRoles (s : PyStr) :
    containsSub joinRoles (pyReplace joinRoles joinFilmActor s) = false := by
  have heq : ('J' :: ("OIN film_actor".toList)) = joinFilmActor := by decide
  have := replaceFuel_self_removed joinRoles 'J' ("OIN film_actor".toList)
    (by decide) (by decide) (by decide) s.length s le_rfl
  rw [heq] at this
  exact this

theorem rep2_preserves_fromActors (s : PyStr)
    (h : containsSub fromActors s = false) :
    containsSub fromActors (pyReplace joinRoles joinFilmActor s) = false := by
  have heq : ('J' :: ("OIN film_actor".toList)) = joinFilmActor := by decide
  have := replaceFuel_preserve joinRoles fromActors 'J' ("OIN film_actor".toList)
    (by decide) (by decide) (by decide) (by decide) s.length s h
  rw [heq] at this
  exact this

theorem rep1_preserves_joinRoles (s : PyStr)
    (h : containsSub joinRoles s = false) :
    containsSub joinRoles (pyReplace fromActors fromActor s) = false := by
  have heq : ('F' :: ("ROM actor".toList)) = fromActor := by decide
  have := replaceFuel_preserve fromActors joinRoles 'F' ("ROM actor".toList)
    (by decide) (by decide) (by decide) (by decide) s.length s h
  rw [heq] at this
  exact this

/-! Facts about `takeUntil`, `afterFirst` and the branches of
`extract_sql`. -/

theorem takeUntil_eq_self {sep u : PyStr} (h : containsSub sep u = false) :
    takeUntil sep u = u := by
  induction u with
  | nil => rfl
  | cons c rest ih =>
    have hm : sep.isPrefixOf (c :: rest) = false := by
      simp only [contains_cons, Bool.or_eq_false_iff] at h
      exact h.1
    simp [takeUntil, hm, ih (not_contains_of_cons h)]

theorem afterFirst_cons_pos {sep : PyStr} {c : Char} {rest : PyStr}
    (h : sep.isPrefixOf (c :: rest) = true) :
    afterFirst sep (c :: rest) = rest.drop (sep.length - 1) := by
  simp [afterFirst, h]

theorem afterFirst_cons_neg {sep : PyStr} {c : Char} {rest : PyStr}
    (h : sep.isPrefixOf (c :: rest) = false) :
    afterFirst sep (c :: rest) = afterFirst sep rest := by
  simp [afterFirst, h]

theorem afterFirst_append (sep dl : PyStr) (lastc : Char)
    (hd : sep = dl ++ [lastc]) :
    ∀ (a b : PyStr), containsSub sep (a ++ dl) = false →
      afterFirst sep (a ++ (sep ++ b)) = b := by
  cases sep with
  | nil => simp at hd
  | cons s0 sr =>
    intro a
    induction a with
    | nil =>
      intro b _
      have hp : (s0 :: sr).isPrefixOf (s0 :: (sr ++ b)) = true := by
        have hps := pref_self_append (s0 :: sr) b
        rw [List.cons_append] at hps
        exact hps
      rw [List.nil_append, List.cons_append, afterFirst_cons_pos hp]
      simp only [List.length_cons, Nat.add_sub_cancel]
      exact drop_len_append sr b
    | cons c a ih =>
      intro b h
      have hlen1 : (s0 :: sr).length = dl.length + 1 := by rw [hd]; simp
      have hm : (s0 :: sr).isPrefixOf (c :: (a ++ ((s0 :: sr) ++ b))) = false := by
        by_contra hcon
        rw [Bool.not_eq_false] at hcon
        have hre : (c :: (a ++ ((s0 :: sr) ++ b))) = ((c :: a) ++ dl) ++ ([lastc] ++ b) := by
          rw [hd]
          simp [List.append_assoc]
        rw [hre] at hcon
        have hlen : (s0 :: sr).length ≤ ((c :: a) ++ dl).length := by
          simp only [List.length_append, List.length_cons, hlen1]
          omega
        have hsh := pref_shorten hcon hlen
        have hcc : containsSub (s0 :: sr) ((c :: a) ++ dl) = true := contains_of_pref hsh
        have h' : containsSub (s0 :: sr) ((c :: a) ++ dl) = false := by
          simpa using h
        rw [h'] at hcc
        cases hcc
      have h2 : containsSub (s0 :: sr) (a ++ dl) = false := by
        refine not_contains_of_cons (c := c) ?_
        simpa using h
      rw [List.cons_append, afterFirst_cons_neg hm]
      exact ih b h2

theorem contains_fence_of_fenceSql {q : PyStr}
    (h : containsSub fenceSql q = true) : containsSub fence q = true :=
  contains_mono_pat (by decide) h

theorem extract_sql_of_no_marker {q : PyStr} (h : containsSub fenceSql q = false) :
    extract_sql q = replacements (pyStrip q) := by
  have hg : (containsSub fenceSql q && containsSub fence q) = false := by
    rw [h]
    rfl
  simp only [extract_sql, hg, Bool.false_eq_true, if_false]

theorem extract_sql_of_marker {q : PyStr} (h : containsSub fenceSql q = true) :
    extract_sql q =
      replacements (pyStrip (takeUntil fence
        (takeUntil fenceSql (afterFirst fenceSql q)))) := by
  have hf : containsSub fence q = true := contains_fence_of_fenceSql h
  have hg : (containsSub fenceSql q && containsSub fence q) = true := by
    rw [h, hf]
    rfl
  simp only [extract_sql, hg, if_true]

/-! The claims. -/

/-- Claim C1, counterexample to the claim as stated.  First: for the input
"\x60\x60\x60sql SELECT * FROM actors \x60\x60\x60", which contains a complete fence,
the output is not the trimmed text strictly between the fence pair
("SELECT * FROM actors") because the two replacements are applied to it as
well.  Second: the input "x\x60\x60\x60sqly" contains no complete fence
(no closing fence follows the marker), yet the output is "y", not the
whole trimmed input.  Third: for
"\x60\x60\x60sqlA\x60\x60\x60\x60\x60sql" the output is "A\x60\x60", not the
text "A" strictly between the first marker and the first following
fence, because the code first cuts the segment at the second marker
occurrence. -/
theorem claim1_counterexample :
    (extract_sql ("```sql SELECT * FROM actors ```".toList) =
      ("SELECT * FROM actor".toList) ∧
     ("SELECT * FROM actor".toList) ≠ ("SELECT * FROM actors".toList)) ∧
    (extract_sql ("x```sqly".toList) = ("y".toList) ∧
     ("y".toList) ≠ replacements (pyStrip ("x```sqly".toList))) ∧
    (extract_sql ("```sqlA`````sql".toList) = ("A``".toList) ∧
     ("A``".toList) ≠ ("A".toList)) := by
  refine ⟨⟨by decide, by decide⟩, ⟨by decide, by decide⟩, ⟨by decide, by decide⟩⟩

/-- Claim C1 (amended): if the marker "\x60\x60\x60sql" occurs exactly once in
the input (part one: the input is `a ++ fenceSql ++ b` where no occurrence
of the marker starts inside `a` or straddles into the shown one, and none
occurs in `b`), `extract_sql` returns the text strictly between the marker
and the first following bare fence (the whole remainder when no fence
follows), trimmed, with the two literal replacements applied; if the marker
does not occur at all, it returns the entire trimmed input with the two
literal replacements applied. -/
theorem claim1_amended_extraction :
    (∀ a b : PyStr,
      containsSub fenceSql (a ++ ("```sq".toList)) = false →
      containsSub fenceSql b = false →
      extract_sql (a ++ (fenceSql ++ b)) =
        replacements (pyStrip (takeUntil fence b))) ∧
    (∀ q : PyStr, containsSub fenceSql q = false →
      extract_sql q = replacements (pyStrip q)) := by
  constructor
  · intro a b h1 h2
    have hin : containsSub fenceSql (a ++ (fenceSql ++ b)) = true :=
      contains_of_contains_right a (contains_of_pref (pref_self_append fenceSql b))
    rw [extract_sql_of_marker hin]
    have hAF : afterFirst fenceSql (a ++ (fenceSql ++ b)) = b :=
      afterFirst_append fenceSql ("```sq".toList) 'l' (by decide) a b h1
    rw [hAF, takeUntil_eq_self h2]
  · intro q h
    exact extract_sql_of_no_marker h

/-- Claim C1 witness: both parts of the amended claim applied at concrete
inputs. -/
theorem claim1_witness :
    extract_sql (("x: ".toList) ++ (fenceSql ++ (" SELECT 1 ``` done".toList))) =
      ("SELECT 1".toList) ∧
    extract_sql ("no fences here".toList) = ("no fences here".toList) := by
  constructor
  · have h := claim1_amended_extraction.1 ("x: ".toList)
      (" SELECT 1 ``` done".toList) (by decide) (by decide)
    rw [h]
    decide
  · have h := claim1_amended_extraction.2 ("no fences here".toList) (by decide)
    rw [h]
    decide

/-- Claim C2, counterexample to the claim as stated: on the input
"FROM actorss" one application of the two replacements yields
"FROM actors" (the replaced text plus the trailing `s` re-forms the
pattern), and a second application changes it again, to "FROM actor". -/
theorem claim2_counterexample :
    replacements ("FROM actorss".toList) = ("FROM actors".toList) ∧
    replacements (replacements ("FROM actorss".toList)) = ("FROM actor".toList) ∧
    replacements (replacements ("FROM actorss".toList)) ≠
      replacements ("FROM actorss".toList) := by
  refine ⟨by decide, by decide, by decide⟩

/-- Claim C2 (amended): applying the extractor's two literal replacements
twice yields the same result as applying them once, for every input that
does not contain the substring "FROM actorss". -/
theorem claim2_amended_idempotent (s : PyStr)
    (h : containsSub ("FROM actorss".toList) s = false) :
    replacements (replacements s) = replacements s := by
  have h1 : containsSub fromActors (pyReplace fromActors fromActor s) = false :=
    rep1_removes_fromActors s h
  have h2 : containsSub fromActors (replacements s) = false :=
    rep2_preserves_fromActors _ h1
  have h3 : containsSub joinRoles (replacements s) = false :=
    rep2_removes_joinRoles _
  show pyReplace joinRoles joinFilmActor
      (pyReplace fromActors fromActor (replacements s)) = replacements s
  rw [pyReplace_id fromActor h2, pyReplace_id joinFilmActor h3]

/-- Claim C2 witness: the amended idempotence applied at a concrete
input. -/
theorem claim2_witness :
    containsSub ("FROM actorss".toList)
      ("SELECT a FROM actors JOIN roles r".toList) = false ∧
    replacements (replacements ("SELECT a FROM actors JOIN roles r".toList)) =
      replacements ("SELECT a FROM actors JOIN roles r".toList) :=
  ⟨by decide,
   claim2_amended_idempotent ("SELECT a FROM actors JOIN roles r".toList) (by decide)⟩

/-- Claim C4, counterexample to the claim as stated: on the input
"FROM actors JOIN roles" the output also rewrites "JOIN roles", so
characters other than the "FROM actors" occurrence are altered; on the
input " FROM actors" the leading space is stripped. -/
theorem claim4_counterexample :
    (extract_sql ("FROM actors JOIN roles".toList) =
       ("FROM actor JOIN film_actor".toList) ∧
     pyReplace fromActors fromActor ("FROM actors JOIN roles".toList) =
       ("FROM actor JOIN roles".toList) ∧
     extract_sql ("FROM actors JOIN roles".toList) ≠
       pyReplace fromActors fromActor ("FROM actors JOIN roles".toList)) ∧
    (extract_sql (" FROM actors".toList) = ("FROM actor".toList) ∧
     extract_sql (" FROM actors".toList) ≠
       pyReplace fromActors fromActor (" FROM actors".toList)) := by
  refine ⟨⟨by decide, by decide, by decide⟩, ⟨by decide, by decide⟩⟩

/-- Claim C4 (amended): for every input that is already trimmed, contains
no bare fence "\x60\x60\x60" and no occurrence of "JOIN roles", and contains
"FROM actors", the output of `extract_sql` is exactly the input with each
occurrence of "FROM actors" replaced by "FROM actor" and no other
characters altered. -/
theorem claim4_amended_replacement (s : PyStr)
    (hstrip : pyStrip s = s)
    (hfence : containsSub fence s = false)
    (hjr : containsSub joinRoles s = false)
    (_hfa : containsSub fromActors s = true) :
    extract_sql s = pyReplace fromActors fromActor s := by
  have hfs : containsSub fenceSql s = false := by
    cases hq : containsSub fenceSql s with
    | false => rfl
    | true =>
      rw [contains_fence_of_fenceSql hq] at hfence
      cases hfence
  rw [extract_sql_of_no_marker hfs, hstrip]
  show pyReplace joinRoles joinFilmActor (pyReplace fromActors fromActor s) =
    pyReplace fromActors fromActor s
  exact pyReplace_id joinFilmActor (rep1_preserves_joinRoles s hjr)

/-- Claim C4 witness: the amended claim applied at a concrete input. -/
theorem claim4_witness :
    extract_sql ("SELECT a FROM actors".toList) =
      pyReplace fromActors fromActor ("SELECT a FROM actors".toList) ∧
    extract_sql ("SELECT a FROM actors".toList) = ("SELECT a FROM actor".toList) :=
  ⟨claim4_amended_replacement ("SELECT a FROM actors".toList)
     (by decide) (by decide) (by decide) (by decide),
   by decide⟩

/-- Claim C8: for every input containing the marker "\x60\x60\x60sql",
the separate check for a closing fence is automatically satisfied (the
marker itself contains one), so `extract_sql` takes the fence-extraction
branch; in particular, when no bare fence occurs after the first marker,
the output is all the text after the first marker, trimmed, with the two
replacements applied — not the entire trimmed input. -/
theorem claim8_fence_branch (q : PyStr) (h : containsSub fenceSql q = true) :
    containsSub fence q = true ∧
    extract_sql q = replacements (pyStrip (takeUntil fence
      (takeUntil fenceSql (afterFirst fenceSql q)))) ∧
    (containsSub fence (afterFirst fenceSql q) = false →
      extract_sql q = replacements (pyStrip (afterFirst fenceSql q))) := by
  refine ⟨contains_fence_of_fenceSql h, extract_sql_of_marker h, ?_⟩
  intro hnf
  have h2 : containsSub fenceSql (afterFirst fenceSql q) = false := by
    cases hc : containsSub fenceSql (afterFirst fenceSql q) with
    | false => rfl
    | true =>
      rw [contains_fence_of_fenceSql hc] at hnf
      cases hnf
  rw [extract_sql_of_marker h, takeUntil_eq_self h2, takeUntil_eq_self hnf]

/-- Claim C8 witness: applied at an input with an unclosed fence. -/
theorem claim8_witness :
    containsSub fenceSql ("ab```sqlcd".toList) = true ∧
    extract_sql ("ab```sqlcd".toList) = ("cd".toList) := by
  refine ⟨by decide, ?_⟩
  have h := (claim8_fence_branch ("ab```sqlcd".toList) (by decide)).2.2 (by decide)
  rw [h]
  decide

/-- Claim C3: whenever the stored connection handle is null, `get_schema`
returns exactly "No database connected.", `run_generated_query` fails with
the explicit error "No database connection." without calling the database
(its result does not depend on the database oracle), and the generate
handler never attempts execution either (its output does not depend on the
database-run oracle). -/
theorem claim3_no_connection {DB : Type} (db : Option DB) (h : db = none) :
    (∀ tableInfo : DB → PyStr,
      get_schema db tableInfo = ("No database connected.".toList)) ∧
    (∀ (runDb : DB → PyStr → Except PyStr PyStr) (sql : PyStr),
      run_generated_query db runDb sql =
        Except.error ("No database connection.".toList)) ∧
    (∀ (runDb runDb' : DB → PyStr → Except PyStr PyStr) (sql : PyStr),
      run_generated_query db runDb sql = run_generated_query db runDb' sql) ∧
    (∀ (tableInfo : DB → PyStr) (llm : PyStr → Except PyStr PyStr)
        (runDb runDb' : DB → PyStr → Except PyStr PyStr) (q : PyStr),
      generateHandler db tableInfo llm runDb q =
        generateHandler db tableInfo llm runDb' q) := by
  subst h
  refine ⟨fun _ => rfl, fun _ _ => rfl, fun _ _ _ => rfl, ?_⟩
  intro tI llm runDb runDb' q
  cases hllm : llm (promptOf (get_schema (none : Option DB) tI) q) with
  | error e => simp [generateHandler, hllm]
  | ok raw => simp [generateHandler, hllm]

/-- Claim C3 witness: the three concrete conclusions at `db = none`. -/
theorem claim3_witness :
    get_schema (none : Option Nat) (fun _ => []) =
      ("No database connected.".toList) ∧
    run_generated_query (none : Option Nat) (fun _ _ => Except.ok [])
      ("SELECT 1".toList) = Except.error ("No database connection.".toList) := by
  have h := @claim3_no_connection Nat none rfl
  exact ⟨h.1 _, h.2.1 _ _⟩

/-- Claim C5: if any exception is raised while building the connection URI
or establishing the handle, the stored handle is set to null and the
exception's message is surfaced verbatim (after the fixed prefix) in the
sidebar error. -/
theorem claim5_connect_failure {DB : Type} (o : Oracles DB) (db : Option DB)
    (username password host port database e : PyStr)
    (he : o.fromUri (mkUri username password host port database) =
      Except.error e) :
    step o db (Action.connect username password host port database) =
      (none, StepOut.sidebar (SidebarMsg.failure
        (("Failed to connect to database: ".toList) ++ e))) := by
  simp [step, connectHandler, he]

/-- Claim C5 witness: a failing connection oracle at concrete inputs. -/
theorem claim5_witness :
    step (⟨fun _ => Except.error ("boom".toList), fun _ => [],
           fun _ => Except.ok [], fun _ _ => Except.ok []⟩ : Oracles Nat)
      (some 7) (Action.connect [] [] [] [] []) =
      (none, StepOut.sidebar (SidebarMsg.failure
        (("Failed to connect to database: ".toList) ++ ("boom".toList)))) :=
  claim5_connect_failure _ (some 7) [] [] [] [] [] ("boom".toList) rfl

/-- Claim C6: with no connection established and a non-empty question, SQL
generation still proceeds — the completion client is invoked on the prompt
with the sentinel schema string embedded — and when it returns, the
generated SQL is displayed and the execution stage is silently skipped (no
execution events, no execution error, for any database-run oracle). -/
theorem claim6_generate_without_connection {DB : Type}
    (tableInfo : DB → PyStr) (llm : PyStr → Except PyStr PyStr)
    (runDb : DB → PyStr → Except PyStr PyStr) (q raw : PyStr)
    (hq : q.isEmpty = false)
    (hllm : llm (promptOf sentinelSchema q) = Except.ok raw) :
    generateHandler (none : Option DB) tableInfo llm runDb q =
      [UIEvent.successNote ("SQL Query Generated!".toList),
       UIEvent.codeBlock (extract_sql raw)] := by
  have hs : get_schema (none : Option DB) tableInfo = sentinelSchema := rfl
  simp [generateHandler, hq, hs, hllm]

/-- Claim C6 witness: a concrete schema-less generation. -/
theorem claim6_witness :
    generateHandler (none : Option Nat) (fun _ => [])
      (fun _ => Except.ok ("SELECT 7".toList)) (fun _ _ => Except.ok [])
      ("q".toList) =
      [UIEvent.successNote ("SQL Query Generated!".toList),
       UIEvent.codeBlock ("SELECT 7".toList)] := by
  have h := @claim6_generate_without_connection Nat (fun _ => [])
    (fun _ => Except.ok ("SELECT 7".toList)) (fun _ _ => Except.ok [])
    ("q".toList) ("SELECT 7".toList) (by decide) rfl
  rw [h]
  decide

/-- Claim C7: when the submitted question is the empty string, a validation
warning is shown instead, and no completion call is made (the output does
not depend on the completion oracle). -/
theorem claim7_empty_question :
    (∀ (DB : Type) (db : Option DB) (tableInfo : DB → PyStr)
        (llm : PyStr → Except PyStr PyStr)
        (runDb : DB → PyStr → Except PyStr PyStr),
      generateHandler db tableInfo llm runDb [] =
        [UIEvent.warning
          ("Please enter a question to generate an SQL query.".toList)]) ∧
    (∀ (DB : Type) (db : Option DB) (tableInfo : DB → PyStr)
        (llm llm' : PyStr → Except PyStr PyStr)
        (runDb : DB → PyStr → Except PyStr PyStr),
      generateHandler db tableInfo llm runDb [] =
        generateHandler db tableInfo llm' runDb []) := by
  constructor
  · intro DB db tI llm runDb
    rfl
  · intro DB db tI llm llm' runDb
    rfl

/-- Claim C9: if `extract_sql` returns the empty string, the execution
stage is skipped even with a live connection handle, because the guard
tests truthiness of the generated SQL string as well as the handle; the
output does not depend on the database-run oracle. -/
theorem claim9_empty_sql_skips_execution {DB : Type} (d : DB)
    (tableInfo : DB → PyStr) (llm : PyStr → Except PyStr PyStr)
    (runDb : DB → PyStr → Except PyStr PyStr) (q raw : PyStr)
    (hq : q.isEmpty = false)
    (hllm : llm (promptOf (tableInfo d) q) = Except.ok raw)
    (hsql : extract_sql raw = []) :
    generateHandler (some d) tableInfo llm runDb q =
      [UIEvent.successNote ("SQL Query Generated!".toList),
       UIEvent.codeBlock []] := by
  have hs : get_schema (some d) tableInfo = tableInfo d := rfl
  simp [generateHandler, hq, hs, hllm, hsql]

/-- Claim C9 witness: an empty completion yields empty SQL, and execution
is skipped although a handle is present. -/
theorem claim9_witness :
    generateHandler (some (0 : Nat)) (fun _ => ("schema".toList))
      (fun _ => Except.ok []) (fun _ _ => Except.ok ("ROWS".toList))
      ("q".toList) =
      [UIEvent.successNote ("SQL Query Generated!".toList),
       UIEvent.codeBlock []] :=
  @claim9_empty_sql_skips_execution Nat 0 (fun _ => ("schema".toList))
    (fun _ => Except.ok []) (fun _ _ => Except.ok ("ROWS".toList))
    ("q".toList) [] (by decide) rfl (by decide)

/-- Claim C10: the generate action never modifies the stored connection
handle; the handle is written only by the connect action — to the new
handle on success and to null on failure. -/
theorem claim10_handle_frame :
    (∀ (DB : Type) (o : Oracles DB) (db : Option DB) (q : PyStr),
      (step o db (Action.generate q)).1 = db) ∧
    (∀ (DB : Type) (o : Oracles DB) (db : Option DB)
        (username password host port database : PyStr),
      (step o db (Action.connect username password host port database)).1 =
        (match o.fromUri (mkUri username password host port database) with
          | Except.ok hdl => some hdl
          | Except.error _ => none)) := by
  constructor
  · intro DB o db q
    rfl
  · intro DB o db u p hs pt d
    cases hf : o.fromUri (mkUri u p hs pt d) with
    | ok hdl => simp [step, connectHandler, hf]
    | error e => simp [step, connectHandler, hf]

end SqlBot
